import Mathlib

/-!
Verification of the sample-conversion core (`src/conversions/sample.rs`).

The development embeds the three `Sample` implementations (`i16`, `u16`,
`f32`) and the `DataConverter` iterator adapter.

Modelling conventions:
- `i16` values are `Int` (range `[-32768, 32767]` where a claim needs it),
  `u16` values are `Nat` (range `[0, 65535]`), and `u32` arguments are `Nat`.
- The `i64` wide arithmetic inside the integer `lerp`s is exact `Int`
  arithmetic: the operands are bounded by `2 ^ 49`, so the `i64` never
  wraps, and Rust `i64` division is truncation toward zero, which is
  `Int.tdiv`.
- Rust panics (`expect` on `try_from`, integer division by zero) are
  modelled as `Except.error` with a constructor per distinct failure mode.
- `f32` values are modelled at two levels. The exact layer (`F32.add`,
  `F32.sub`, `F32.mul`, `F32.div`) performs exact rational arithmetic on
  finite values, with the IEEE special values `+inf`, `-inf` and `NaN`
  propagating by the IEEE rules; it is used only for statements where
  rounding is provably not load-bearing (operations that are exact in
  real binary32, sign/specialness arguments). The rounded layer
  (`roundQ`, `F32.addR`, `F32.subR`, `F32.mulR`, `F32.divR`,
  `f32lerpR`) models true IEEE binary32 semantics: each operation
  computes the exact rational result and then rounds it to the nearest
  representable binary32 value (ties to even), overflowing to the
  signed infinity; it settles the statements that IEEE rounding
  falsifies. All float operations are total, as float arithmetic never
  panics.
-/

/-- The two distinct panic modes of the integer `lerp` implementations:
division by zero in the `i64` division, and the `expect` on the failed
`try_from` narrowing. -/
inductive LerpError where
  | divByZero
  | outOfRange
deriving DecidableEq

deriving instance DecidableEq for Except

/-- Exact 32-bit-float value domain: a finite (unrounded) rational or one
of the IEEE special values. -/
inductive F32 where
  | finite (q : ℚ)
  | posInf
  | negInf
  | nan
deriving DecidableEq

/-- True exactly on finite values. -/
def F32.isFinite : F32 → Bool
  | .finite _ => true
  | _ => false

/-- IEEE negation. -/
def F32.neg : F32 → F32
  | .finite q => .finite (-q)
  | .posInf => .negInf
  | .negInf => .posInf
  | .nan => .nan

/-- IEEE addition, exact on finite operands. -/
def F32.add : F32 → F32 → F32
  | .nan, _ => .nan
  | _, .nan => .nan
  | .finite a, .finite b => .finite (a + b)
  | .finite _, .posInf => .posInf
  | .finite _, .negInf => .negInf
  | .posInf, .finite _ => .posInf
  | .negInf, .finite _ => .negInf
  | .posInf, .posInf => .posInf
  | .negInf, .negInf => .negInf
  | .posInf, .negInf => .nan
  | .negInf, .posInf => .nan

/-- IEEE subtraction (`a - b = a + (-b)` holds exactly in IEEE). -/
def F32.sub (a b : F32) : F32 := F32.add a (F32.neg b)

/-- IEEE multiplication, exact on finite operands. -/
def F32.mul : F32 → F32 → F32
  | .nan, _ => .nan
  | _, .nan => .nan
  | .finite a, .finite b => .finite (a * b)
  | .finite a, .posInf => if 0 < a then .posInf else if a < 0 then .negInf else .nan
  | .finite a, .negInf => if 0 < a then .negInf else if a < 0 then .posInf else .nan
  | .posInf, .finite b => if 0 < b then .posInf else if b < 0 then .negInf else .nan
  | .negInf, .finite b => if 0 < b then .negInf else if b < 0 then .posInf else .nan
  | .posInf, .posInf => .posInf
  | .negInf, .negInf => .posInf
  | .posInf, .negInf => .negInf
  | .negInf, .posInf => .negInf

/-- IEEE division, exact on finite operands; the zeros produced by
integer-to-float conversions in the embedded code are positive zeros, so
the sign of zero is not modelled. -/
def F32.div : F32 → F32 → F32
  | .nan, _ => .nan
  | _, .nan => .nan
  | .finite a, .finite b =>
      if b = 0 then (if 0 < a then .posInf else if a < 0 then .negInf else .nan)
      else .finite (a / b)
  | .finite _, .posInf => .finite 0
  | .finite _, .negInf => .finite 0
  | .posInf, .finite b => if 0 ≤ b then .posInf else .negInf
  | .negInf, .finite b => if 0 ≤ b then .negInf else .posInf
  | .posInf, .posInf => .nan
  | .posInf, .negInf => .nan
  | .negInf, .posInf => .nan
  | .negInf, .negInf => .nan

/-- Rust `as` narrowing from a float to an integer truncates toward zero;
on rationals this is floor for nonnegative and ceiling for negative
values. -/
def ratTrunc (q : ℚ) : Int := if 0 ≤ q then ⌊q⌋ else ⌈q⌉

/-- Rust `as i16` applied to a float value: truncate toward zero, then
saturate to `[-32768, 32767]`; `NaN` maps to `0`. -/
def f32toI16cast : F32 → Int
  | .nan => 0
  | .posInf => 32767
  | .negInf => -32768
  | .finite q => max (-32768) (min 32767 (ratTrunc q))

/-- Rust `as u16` applied to a float value: truncate toward zero, then
saturate to `[0, 65535]`; `NaN` maps to `0`. -/
def f32toU16cast : F32 → Nat
  | .nan => 0
  | .posInf => 65535
  | .negInf => 0
  | .finite q => (max 0 (min 65535 (ratTrunc q))).toNat

/-- The shared `i64` interpolation expression of the `u16` and `i16`
`lerp` bodies: `first + (second - first) * numerator / denominator`,
with Rust (truncating) `i64` division. -/
def lerpWide (first second : Int) (numerator denominator : Nat) : Int :=
  first + Int.tdiv ((second - first) * (numerator : Int)) (denominator : Int)

/-- Body of `<u16 as Sample>::lerp`: wide `i64` interpolation, then
`u16::try_from(..).expect(..)`; `i64` division by zero panics first. -/
def u16lerp (first second numerator denominator : Nat) : Except LerpError Nat :=
  if denominator = 0 then Except.error LerpError.divByZero
  else
    let d := lerpWide (first : Int) (second : Int) numerator denominator
    if 0 ≤ d ∧ d ≤ 65535 then Except.ok d.toNat
    else Except.error LerpError.outOfRange

/-- Body of `<i16 as Sample>::lerp`: wide `i64` interpolation, then
`i16::try_from(..).expect(..)`; `i64` division by zero panics first. -/
def i16lerp (first second : Int) (numerator denominator : Nat) : Except LerpError Int :=
  if denominator = 0 then Except.error LerpError.divByZero
  else
    let d := lerpWide first second numerator denominator
    if -32768 ≤ d ∧ d ≤ 32767 then Except.ok d
    else Except.error LerpError.outOfRange

/-- Body of `<f32 as Sample>::lerp`:
`first + (second - first) * numerator as f32 / denominator as f32`. -/
def f32lerp (first second : F32) (numerator denominator : Nat) : F32 :=
  F32.add first
    (F32.div (F32.mul (F32.sub second first) (F32.finite (numerator : ℚ)))
      (F32.finite (denominator : ℚ)))

/-- Body of `<i16 as Sample>::amplify`: `((self as f32) * value) as i16`. -/
def i16amplify (v : Int) (value : F32) : Int :=
  f32toI16cast (F32.mul (F32.finite (v : ℚ)) value)

/-- Body of `<u16 as Sample>::amplify`: `((self as f32) * value) as u16`. -/
def u16amplify (v : Nat) (value : F32) : Nat :=
  f32toU16cast (F32.mul (F32.finite (v : ℚ)) value)

/-- Body of `<f32 as Sample>::amplify`: `self * value`. -/
def f32amplify (v value : F32) : F32 := F32.mul v value

/-- Body of `<i16 as Sample>::to_f32`: `self as f32 / 32768.0`. -/
def i16toF32 (v : Int) : F32 := F32.div (F32.finite (v : ℚ)) (F32.finite 32768)

/-- Body of `<u16 as Sample>::to_f32`: `(self as f32 - 32768.0) / 32768.0`. -/
def u16toF32 (v : Nat) : F32 :=
  F32.div (F32.sub (F32.finite (v : ℚ)) (F32.finite 32768)) (F32.finite 32768)

/-- Body of `<f32 as Sample>::to_f32`: the identity. -/
def f32toF32 (v : F32) : F32 := v

/-- Body of `<i16 as Sample>::saturating_add`: `i16::saturating_add`,
which clamps the exact sum to `[-32768, 32767]`. -/
def i16satAdd (a b : Int) : Int := max (-32768) (min 32767 (a + b))

/-- Body of `<u16 as Sample>::saturating_add`: `u16::saturating_add`,
which clamps the exact sum to `[0, 65535]`. -/
def u16satAdd (a b : Nat) : Nat := min 65535 (a + b)

/-- Body of `<f32 as Sample>::saturating_add`: plain `self + other`. -/
def f32satAdd (a b : F32) : F32 := F32.add a b

/-- Body of `<i16 as Sample>::zero_value`: `0`. -/
def i16zero : Int := 0

/-- Body of `<u16 as Sample>::zero_value`: `32768`. -/
def u16zero : Nat := 32768

/-- Body of `<f32 as Sample>::zero_value`: `0.0`. -/
def f32zero : F32 := F32.finite 0

/-- A pull-based iterator: a state type with a `next` step and a
`size_hint`. `next` returning `none` is iterator exhaustion. -/
structure Iter (σ α : Type) where
  next : σ → Option (α × σ)
  sizeHint : σ → Nat × Option Nat

/-- The `DataConverter<I, O>` adapter over an abstract conversion
function (`cpal`'s `from_sample`, external to this crate): `next` maps
the conversion over the source's `next`, `size_hint` delegates to the
source unchanged. -/
def dataConverter {σ α β : Type} (it : Iter σ α) (conv : α → β) : Iter σ β where
  next s := (it.next s).map (fun p => (conv p.1, p.2))
  sizeHint := it.sizeHint

/-- The canonical iterator over a list: `next` uncons-es, and the
remaining length is known exactly. -/
def listIter (α : Type) : Iter (List α) α where
  next
    | [] => none
    | x :: xs => some (x, xs)
  sizeHint l := (l.length, some l.length)

/-- Pull an iterator `m` times from state `s`, recording each yielded
element (`none` records a pull past exhaustion). -/
def runIter {σ α : Type} (it : Iter σ α) : (s : σ) → (m : Nat) → List (Option α)
  | _, 0 => []
  | s, m + 1 =>
    match it.next s with
    | none => none :: runIter it s m
    | some (a, s') => some a :: runIter it s' m

/-- The state reached after `k` successful pulls, if the iterator does
not run out first. -/
def Iter.advance {σ α : Type} (it : Iter σ α) : (s : σ) → (k : Nat) → Option σ
  | s, 0 => some s
  | s, k + 1 =>
    match it.next s with
    | none => none
    | some p => it.advance p.2 k

/-- The iterator at state `s` yields exactly `n` further elements and is
then exhausted. -/
def yieldsN {σ α : Type} (it : Iter σ α) : (s : σ) → (n : Nat) → Prop
  | s, 0 => it.next s = none
  | s, n + 1 => ∃ p, it.next s = some p ∧ yieldsN it p.2 n

/-- The `ExactSizeIterator` contract at state `s`: the iterator knows its
exact remaining length, and `size_hint` reports it as both bounds. -/
def exactAt {σ α : Type} (it : Iter σ α) (s : σ) : Prop :=
  ∃ n, yieldsN it s n ∧ it.sizeHint s = (n, some n)

/-- Round a rational to the nearest integer, ties to even (the IEEE
default rounding attribute, applied to a value scaled into integer
units). -/
def roundEven (x : ℚ) : Int :=
  if x - ⌊x⌋ < 1 / 2 then ⌊x⌋
  else if 1 / 2 < x - ⌊x⌋ then ⌊x⌋ + 1
  else if Even ⌊x⌋ then ⌊x⌋ else ⌊x⌋ + 1

/-- The exponent of one unit in the last place of a binary32 value of
magnitude `q`: 23 below the leading-bit exponent, clamped at the
subnormal regime `2 ^ (-126 - 23) = 2 ^ (-149)`. -/
def f32ulpExp (q : ℚ) : Int := max (Int.log 2 |q|) (-126) - 23

/-- The exact rational correctly rounded to the binary32 grid (nearest,
ties to even), before the overflow check. -/
def roundF32val (q : ℚ) : ℚ :=
  (roundEven (q * 2 ^ (-f32ulpExp q)) : ℚ) * 2 ^ f32ulpExp q

/-- IEEE binary32 correct rounding of an exact rational: round to
nearest (ties to even) on the binary32 grid, overflowing to the signed
infinity at magnitude `2 ^ 128` and beyond. -/
def roundQ (q : ℚ) : F32 :=
  if q = 0 then F32.finite 0
  else if (2 : ℚ) ^ (128 : Int) ≤ roundF32val q then F32.posInf
  else if roundF32val q ≤ -((2 : ℚ) ^ (128 : Int)) then F32.negInf
  else F32.finite (roundF32val q)

/-- IEEE binary32 addition with correct rounding: the exact result,
rounded; special values as in `F32.add`. -/
def F32.addR (a b : F32) : F32 :=
  match F32.add a b with
  | .finite q => roundQ q
  | w => w

/-- IEEE binary32 subtraction with correct rounding. -/
def F32.subR (a b : F32) : F32 := F32.addR a (F32.neg b)

/-- IEEE binary32 multiplication with correct rounding. -/
def F32.mulR (a b : F32) : F32 :=
  match F32.mul a b with
  | .finite q => roundQ q
  | w => w

/-- IEEE binary32 division with correct rounding. -/
def F32.divR (a b : F32) : F32 :=
  match F32.div a b with
  | .finite q => roundQ q
  | w => w

/-- Body of `<f32 as Sample>::lerp` under correctly rounded IEEE
binary32 arithmetic, including the rounding `u32 as f32` conversions of
the numerator and the denominator. -/
def f32lerpR (first second : F32) (numerator denominator : Nat) : F32 :=
  F32.addR first
    (F32.divR (F32.mulR (F32.subR second first) (roundQ (numerator : ℚ)))
      (roundQ (denominator : ℚ)))

/-! Helper lemmas about truncating division and the exact float model. -/

/-- Euclidean division bracketing for a positive divisor. -/
theorem ediv_bounds (x d : Int) (hd : 0 < d) :
    d * (x / d) ≤ x ∧ x < d * (x / d) + d := by
  have h1 := Int.ediv_add_emod x d
  have h2 := Int.emod_nonneg x (ne_of_gt hd)
  have h3 := Int.emod_lt_of_pos x hd
  constructor <;> linarith

/-- Truncating division of a nonnegative dividend by a positive divisor:
the quotient is nonnegative and brackets the dividend from below. -/
theorem tdiv_bounds_nonneg (x d : Int) (hx : 0 ≤ x) (hd : 0 < d) :
    0 ≤ Int.tdiv x d ∧ d * Int.tdiv x d ≤ x ∧ x < d * Int.tdiv x d + d := by
  rw [Int.tdiv_eq_ediv hx (le_of_lt hd)]
  exact ⟨Int.ediv_nonneg hx (le_of_lt hd), (ediv_bounds x d hd).1, (ediv_bounds x d hd).2⟩

/-- Truncating division of a nonpositive dividend by a positive divisor:
the quotient is nonpositive and brackets the dividend from above. -/
theorem tdiv_bounds_nonpos (x d : Int) (hx : x ≤ 0) (hd : 0 < d) :
    Int.tdiv x d ≤ 0 ∧ x ≤ d * Int.tdiv x d ∧ d * Int.tdiv x d < x + d := by
  have hx' : 0 ≤ -x := by linarith
  have h := tdiv_bounds_nonneg (-x) d hx' hd
  have hneg : Int.tdiv x d = -Int.tdiv (-x) d := by
    rw [← Int.neg_tdiv, neg_neg]
  rw [hneg]
  refine ⟨by linarith [h.1], by linarith [h.2.1, h.2.2], by linarith [h.2.1, h.2.2]⟩

/-- Truncating division is within one divisor of the exact quotient. -/
theorem tdiv_abs_lt (x d : Int) (hd : 0 < d) :
    |d * Int.tdiv x d - x| < d := by
  rcases le_or_lt 0 x with hx | hx
  · have h := tdiv_bounds_nonneg x d hx hd
    rw [abs_lt]; constructor <;> linarith [h.2.1, h.2.2]
  · have h := tdiv_bounds_nonpos x d (le_of_lt hx) hd
    rw [abs_lt]; constructor <;> linarith [h.2.1, h.2.2]

/-- For an interpolation position in `[0, 1]`, the wide `i64`
interpolation value stays between the two endpoints. -/
theorem lerpWide_in_range (a b : Int) (n d : Nat) (hd : 0 < d) (hnd : n ≤ d) :
    min a b ≤ lerpWide a b n d ∧ lerpWide a b n d ≤ max a b := by
  have hdz : (0 : Int) < (d : Int) := by exact_mod_cast hd
  have hn0 : (0 : Int) ≤ (n : Int) := Int.natCast_nonneg n
  have hnd' : (n : Int) ≤ (d : Int) := by exact_mod_cast hnd
  set x : Int := (b - a) * (n : Int) with hx
  rcases le_or_lt a b with hab | hab
  · have hxnn : 0 ≤ x := mul_nonneg (by linarith) hn0
    have h := tdiv_bounds_nonneg x d hxnn hdz
    have hub : (d : Int) * Int.tdiv x d ≤ (d : Int) * (b - a) := by
      have : x ≤ (b - a) * (d : Int) :=
        mul_le_mul_of_nonneg_left hnd' (by linarith)
      calc (d : Int) * Int.tdiv x d ≤ x := h.2.1
        _ ≤ (b - a) * (d : Int) := this
        _ = (d : Int) * (b - a) := by ring
    have ht : Int.tdiv x d ≤ b - a := le_of_mul_le_mul_left hub hdz
    unfold lerpWide
    rw [← hx]
    constructor
    · have : min a b = a := min_eq_left hab
      rw [this]; linarith [h.1]
    · have : max a b = b := max_eq_right hab
      rw [this]; linarith
  · have hxnp : x ≤ 0 := mul_nonpos_of_nonpos_of_nonneg (by linarith) hn0
    have h := tdiv_bounds_nonpos x d hxnp hdz
    have hlb : (d : Int) * (b - a) ≤ (d : Int) * Int.tdiv x d := by
      have : (b - a) * (d : Int) ≤ x := by
        have := mul_le_mul_of_nonpos_left hnd' (by linarith : b - a ≤ 0)
        linarith [this]
      calc (d : Int) * (b - a) = (b - a) * (d : Int) := by ring
        _ ≤ x := this
        _ ≤ (d : Int) * Int.tdiv x d := h.2.1
    have ht : b - a ≤ Int.tdiv x d := le_of_mul_le_mul_left hlb hdz
    unfold lerpWide
    rw [← hx]
    constructor
    · have : min a b = b := min_eq_right (le_of_lt hab)
      rw [this]; linarith
    · have : max a b = a := max_eq_left (le_of_lt hab)
      rw [this]; linarith [h.1]

/-- The wide interpolation value is within one native unit of the exact
real-valued interpolation. -/
theorem lerpWide_accuracy (a b : Int) (n d : Nat) (hd : 0 < d) :
    |(lerpWide a b n d : ℚ) - ((a : ℚ) + ((b : ℚ) - (a : ℚ)) * (n : ℚ) / (d : ℚ))| < 1 := by
  have hdz : (0 : Int) < (d : Int) := by exact_mod_cast hd
  have hdq : (0 : ℚ) < (d : ℚ) := by exact_mod_cast hd
  set x : Int := (b - a) * (n : Int) with hx
  set t : Int := Int.tdiv x d with ht
  have key : |(d : Int) * t - x| < (d : Int) := tdiv_abs_lt x d hdz
  have hcast : (lerpWide a b n d : ℚ) = (a : ℚ) + (t : ℚ) := by
    unfold lerpWide
    rw [← hx, ← ht]
    push_cast
    ring
  have hxq : ((x : Int) : ℚ) = ((b : ℚ) - (a : ℚ)) * (n : ℚ) := by
    rw [hx]; push_cast; ring
  rw [hcast]
  have heq : (a : ℚ) + (t : ℚ) - ((a : ℚ) + ((b : ℚ) - (a : ℚ)) * (n : ℚ) / (d : ℚ))
      = (((d : Int) * t - x : Int) : ℚ) / (d : ℚ) := by
    push_cast
    rw [← hxq]
    field_simp
    ring
  rw [heq, abs_div, abs_of_pos hdq, div_lt_one hdq]
  calc |(((d : Int) * t - x : Int) : ℚ)| = ((|(d : Int) * t - x| : Int) : ℚ) := by
        rw [Int.cast_abs]
    _ < (d : ℚ) := by exact_mod_cast key

/-- The float lerp on finite inputs with a nonzero denominator computes
the exact interpolation formula. -/
theorem f32lerp_finite (qa qb : ℚ) (n d : Nat) (hd : d ≠ 0) :
    f32lerp (F32.finite qa) (F32.finite qb) n d
      = F32.finite (qa + (qb - qa) * (n : ℚ) / (d : ℚ)) := by
  have hdq : (d : ℚ) ≠ 0 := Nat.cast_ne_zero.mpr hd
  simp [f32lerp, F32.sub, F32.neg, F32.add, F32.mul, F32.div, hdq, sub_eq_add_neg]

/-- The float lerp at position `0` returns the first endpoint exactly. -/
theorem f32lerp_num_zero (qa qb : ℚ) (d : Nat) (hd : d ≠ 0) :
    f32lerp (F32.finite qa) (F32.finite qb) 0 d = F32.finite qa := by
  rw [f32lerp_finite qa qb 0 d hd]
  norm_num

/-- The float lerp at position `1` returns the second endpoint exactly. -/
theorem f32lerp_num_eq_den (qa qb : ℚ) (d : Nat) (hd : d ≠ 0) :
    f32lerp (F32.finite qa) (F32.finite qb) d d = F32.finite qb := by
  have hdq : (d : ℚ) ≠ 0 := Nat.cast_ne_zero.mpr hd
  rw [f32lerp_finite qa qb d d hd]
  rw [mul_div_assoc, div_self hdq]
  norm_num

/-- Dividing any float by a (positive) zero never produces a finite
value: the result is an infinity or `NaN`. -/
theorem F32.div_by_finite_zero_not_finite (z : F32) :
    (F32.div z (F32.finite 0)).isFinite = false := by
  cases z with
  | finite q =>
      rcases lt_trichotomy 0 q with h | h | h
      · simp [F32.div, F32.isFinite, h]
      · rw [← h]
        simp [F32.div, F32.isFinite]
      · have h1 : ¬ (0 : ℚ) < q := by linarith
        simp [F32.div, F32.isFinite, h, h1]
  | posInf => simp [F32.div, F32.isFinite]
  | negInf => simp [F32.div, F32.isFinite]
  | nan => simp [F32.div, F32.isFinite]

/-- Adding a non-finite float to anything stays non-finite. -/
theorem F32.add_right_not_finite (x w : F32) (h : w.isFinite = false) :
    (F32.add x w).isFinite = false := by
  cases x <;> cases w <;> simp_all [F32.add, F32.isFinite]

/-- The float lerp with denominator `0` never produces a finite value. -/
theorem f32lerp_den_zero_not_finite (x y : F32) (n : Nat) :
    (f32lerp x y n 0).isFinite = false := by
  unfold f32lerp
  apply F32.add_right_not_finite
  have : ((0 : Nat) : ℚ) = 0 := by norm_num
  rw [this]
  exact F32.div_by_finite_zero_not_finite _

/-- Evaluation rule for `roundEven` when the fractional part is below a
half. -/
theorem roundEven_eval (x : ℚ) (f : Int) (h1 : (f : ℚ) ≤ x) (h2 : x < f + 1)
    (hlt : x - (f : ℚ) < 1 / 2) : roundEven x = f := by
  have hfl : ⌊x⌋ = f := Int.floor_eq_iff.mpr ⟨h1, h2⟩
  unfold roundEven
  rw [hfl, if_pos hlt]

/-- Evaluation rule for the base-2 logarithm on positive rationals. -/
theorem int_log2_eval (q : ℚ) (e : Int) (h0 : 0 < q)
    (h1 : (2 : ℚ) ^ e ≤ q) (h2 : q < (2 : ℚ) ^ (e + 1)) :
    Int.log 2 q = e := by
  have hb : 1 < 2 := one_lt_two
  have hle : e ≤ Int.log 2 q := by
    rw [← Int.zpow_le_iff_le_log hb h0]
    exact_mod_cast h1
  have hlt : Int.log 2 q < e + 1 := by
    rw [← Int.lt_zpow_iff_log_lt hb h0]
    exact_mod_cast h2
  omega

/-- Evaluation rule for `roundQ` on a normal, non-overflowing value:
exhibit the leading-bit exponent and the rounded scaled mantissa. -/
theorem roundQ_eval (q : ℚ) (e m : Int)
    (hq : q ≠ 0)
    (hlog : Int.log 2 |q| = e)
    (he : -126 ≤ e)
    (hm : roundEven (q * 2 ^ (23 - e)) = m)
    (hlo : -((2 : ℚ) ^ (128 : Int)) < (m : ℚ) * 2 ^ (e - 23))
    (hhi : (m : ℚ) * 2 ^ (e - 23) < (2 : ℚ) ^ (128 : Int)) :
    roundQ q = F32.finite ((m : ℚ) * 2 ^ (e - 23)) := by
  have hexp : f32ulpExp q = e - 23 := by
    unfold f32ulpExp
    rw [hlog, max_eq_left (by omega)]
  have hval : roundF32val q = (m : ℚ) * 2 ^ (e - 23) := by
    unfold roundF32val
    rw [hexp]
    have h23 : -(e - 23) = 23 - e := by ring
    rw [h23, hm]
  unfold roundQ
  rw [if_neg hq, hval, if_neg (by linarith), if_neg (by linarith)]

/-- Rounding `0` gives `0`. -/
theorem roundQ_zero : roundQ 0 = F32.finite 0 := by
  unfold roundQ
  rw [if_pos rfl]

/-- Rounding `1` gives `1`: it is representable. -/
theorem roundQ_one : roundQ 1 = F32.finite 1 := by
  have h := roundQ_eval 1 0 8388608 (by norm_num)
    (by rw [abs_one]; exact int_log2_eval 1 0 (by norm_num) (by norm_num) (by norm_num))
    (by norm_num)
    (roundEven_eval _ 8388608 (by norm_num) (by norm_num) (by norm_num))
    (by norm_num) (by norm_num)
  rw [h]
  norm_num

/-- Rounding `2` gives `2`: it is representable. -/
theorem roundQ_two : roundQ 2 = F32.finite 2 := by
  have h := roundQ_eval 2 1 8388608 (by norm_num)
    (by rw [show |(2 : ℚ)| = 2 from by norm_num]
        exact int_log2_eval 2 1 (by norm_num) (by norm_num) (by norm_num))
    (by norm_num)
    (roundEven_eval _ 8388608 (by norm_num) (by norm_num) (by norm_num))
    (by norm_num) (by norm_num)
  rw [h]
  norm_num

/-- Rounding `-1` gives `-1`: it is representable. -/
theorem roundQ_neg_one : roundQ (-1) = F32.finite (-1) := by
  have h := roundQ_eval (-1) 0 (-8388608) (by norm_num)
    (by rw [show |(-1 : ℚ)| = 1 from by norm_num]
        exact int_log2_eval 1 0 (by norm_num) (by norm_num) (by norm_num))
    (by norm_num)
    (roundEven_eval _ (-8388608) (by norm_num) (by norm_num) (by norm_num))
    (by norm_num) (by norm_num)
  rw [h]
  norm_num

/-- Rounding `1 + 2 ^ (-25)` gives exactly `1`: the scaled mantissa
`2 ^ 23 + 1 / 4` is a quarter of an ulp above `2 ^ 23`, so it rounds
down. -/
theorem roundQ_one_add_eps : roundQ (33554433 / 33554432) = F32.finite 1 := by
  have h := roundQ_eval (33554433 / 33554432) 0 8388608 (by norm_num)
    (by rw [show |(33554433 / 33554432 : ℚ)| = 33554433 / 33554432 from by norm_num]
        exact int_log2_eval (33554433 / 33554432) 0 (by norm_num) (by norm_num) (by norm_num))
    (by norm_num)
    (roundEven_eval _ 8388608 (by norm_num) (by norm_num) (by norm_num))
    (by norm_num) (by norm_num)
  rw [h]
  norm_num

/-- Rounded addition on finite operands rounds the exact sum. -/
theorem F32.addR_finite (a b : ℚ) :
    F32.addR (F32.finite a) (F32.finite b) = roundQ (a + b) := by
  unfold F32.addR
  simp [F32.add]

/-- Rounded subtraction on finite operands rounds the exact
difference. -/
theorem F32.subR_finite (a b : ℚ) :
    F32.subR (F32.finite a) (F32.finite b) = roundQ (a - b) := by
  unfold F32.subR F32.addR
  simp [F32.neg, F32.add, sub_eq_add_neg]

/-- Rounded multiplication on finite operands rounds the exact
product. -/
theorem F32.mulR_finite (a b : ℚ) :
    F32.mulR (F32.finite a) (F32.finite b) = roundQ (a * b) := by
  unfold F32.mulR
  simp [F32.mul]

/-- Rounded division on finite operands rounds the exact quotient. -/
theorem F32.divR_finite (a b : ℚ) (hb : b ≠ 0) :
    F32.divR (F32.finite a) (F32.finite b) = roundQ (a / b) := by
  unfold F32.divR
  simp [F32.div, hb]

/-- Under correctly rounded IEEE arithmetic, the float lerp between the
representation extremes `-1.0` and `1.0` at ratio `0` returns exactly
`-1.0` (every intermediate value is representable). -/
theorem f32lerpR_boundary_num_zero :
    f32lerpR (F32.finite (-1)) (F32.finite 1) 0 1 = F32.finite (-1) := by
  unfold f32lerpR
  rw [Nat.cast_zero, Nat.cast_one, roundQ_zero, roundQ_one]
  rw [F32.subR_finite, show (1 : ℚ) - (-1) = 2 from by norm_num, roundQ_two]
  rw [F32.mulR_finite, show (2 : ℚ) * 0 = 0 from by norm_num, roundQ_zero]
  rw [F32.divR_finite 0 1 (by norm_num), show (0 : ℚ) / 1 = 0 from by norm_num, roundQ_zero]
  rw [F32.addR_finite, show (-1 : ℚ) + 0 = -1 from by norm_num, roundQ_neg_one]

/-- Under correctly rounded IEEE arithmetic, the float lerp between the
representation extremes `-1.0` and `1.0` at ratio `1` returns exactly
`1.0` (every intermediate value is representable). -/
theorem f32lerpR_boundary_num_one :
    f32lerpR (F32.finite (-1)) (F32.finite 1) 1 1 = F32.finite 1 := by
  unfold f32lerpR
  rw [Nat.cast_one, roundQ_one]
  rw [F32.subR_finite, show (1 : ℚ) - (-1) = 2 from by norm_num, roundQ_two]
  rw [F32.mulR_finite, show (2 : ℚ) * 1 = 2 from by norm_num, roundQ_two]
  rw [F32.divR_finite 2 1 (by norm_num), show (2 : ℚ) / 1 = 2 from by norm_num, roundQ_two]
  rw [F32.addR_finite, show (-1 : ℚ) + 2 = 1 from by norm_num, roundQ_one]

/-- The wide interpolation value at numerator `0` is the first sample. -/
theorem lerpWide_num_zero (a b : Int) (d : Nat) : lerpWide a b 0 d = a := by
  simp [lerpWide, Int.zero_tdiv]

/-- The wide interpolation value at numerator `= denominator` is the
second sample. -/
theorem lerpWide_num_eq_den (a b : Int) (d : Nat) (hd : d ≠ 0) :
    lerpWide a b d d = b := by
  have hdi : (d : Int) ≠ 0 := Int.natCast_ne_zero.mpr hd
  unfold lerpWide
  rw [Int.mul_tdiv_cancel _ hdi]
  ring

/-- `u16` lerp succeeds exactly on in-range wide values. -/
theorem u16lerp_ok (f s n d : Nat) (hd : d ≠ 0)
    (h : 0 ≤ lerpWide (f : Int) (s : Int) n d ∧ lerpWide (f : Int) (s : Int) n d ≤ 65535) :
    u16lerp f s n d = Except.ok (lerpWide (f : Int) (s : Int) n d).toNat := by
  simp only [u16lerp, if_neg hd, if_pos h]

/-- `i16` lerp succeeds exactly on in-range wide values. -/
theorem i16lerp_ok (a b : Int) (n d : Nat) (hd : d ≠ 0)
    (h : -32768 ≤ lerpWide a b n d ∧ lerpWide a b n d ≤ 32767) :
    i16lerp a b n d = Except.ok (lerpWide a b n d) := by
  simp only [i16lerp, if_neg hd, if_pos h]

/-- An iterator whose `next` already returns `none` keeps yielding
`none` on every further pull. -/
theorem runIter_exhausted (σ α : Type) (it : Iter σ α) (s : σ)
    (h : it.next s = none) (m : Nat) :
    runIter it s m = List.replicate m none := by
  induction m with
  | zero => rfl
  | succ k ih => simp [runIter, h, ih, List.replicate_succ]

/-- The adapter advances through exactly the same states as its source. -/
theorem dataConverter_advance (σ α β : Type) (it : Iter σ α) (conv : α → β) :
    ∀ (k : Nat) (s : σ), (dataConverter it conv).advance s k = it.advance s k := by
  intro k
  induction k with
  | zero => intro s; rfl
  | succ j ih =>
      intro s
      unfold Iter.advance
      cases h : it.next s with
      | none => simp [dataConverter, h]
      | some p =>
          simp only [dataConverter, h, Option.map_some']
          exact ih p.2

/-- The adapter yields exactly `n` further elements iff its source
does. -/
theorem dataConverter_yieldsN (σ α β : Type) (it : Iter σ α) (conv : α → β) :
    ∀ (n : Nat) (s : σ), yieldsN (dataConverter it conv) s n ↔ yieldsN it s n := by
  intro n
  induction n with
  | zero =>
      intro s
      unfold yieldsN
      simp [dataConverter]
  | succ j ih =>
      intro s
      unfold yieldsN
      cases h : it.next s with
      | none => simp [dataConverter, h]
      | some p =>
          simp only [dataConverter, h, Option.map_some', Option.some.injEq,
            exists_eq_left']
          exact ih p.2

/-- The adapter satisfies the exact-size contract iff its source does. -/
theorem dataConverter_exactAt (σ α β : Type) (it : Iter σ α) (conv : α → β) (s : σ) :
    exactAt (dataConverter it conv) s ↔ exactAt it s := by
  unfold exactAt
  apply exists_congr
  intro n
  rw [dataConverter_yieldsN σ α β it conv n s]
  exact Iff.rfl

/-! The claim theorems. -/

/-- C1 counterexample: the claim says every integer `lerp` call with
`numerator/denominator > 1` panics, but `u16` `lerp(5, 5, 2, 1)` has
ratio `2 > 1` and returns `5` without failing. -/
theorem lerp_ratio_above_one_no_panic_cex :
    u16lerp 5 5 2 1 = Except.ok 5 := by decide

/-- C1 (amended): with a nonzero denominator, the integer `lerp`s fail
with the out-of-range narrowing panic exactly when the wide `i64`
interpolation value leaves the representation's native range; ratios
above `1` do overflow positively (`u16` and `i16`) and negatively
(`i16`) on the unit-test inputs of the crate. (The float `lerp` has no
panic path in the source at all: its embedding is a total function, so
the claim's never-fails clause for it carries no proof obligation.) -/
theorem lerp_overflow_contract (ua ub n d : Nat) (a b : Int)
    (hd : d ≠ 0) :
    (u16lerp ua ub n d = Except.error LerpError.outOfRange ↔
       ¬ (0 ≤ lerpWide (ua : Int) (ub : Int) n d ∧
            lerpWide (ua : Int) (ub : Int) n d ≤ 65535)) ∧
    (i16lerp a b n d = Except.error LerpError.outOfRange ↔
       ¬ (-32768 ≤ lerpWide a b n d ∧ lerpWide a b n d ≤ 32767)) ∧
    u16lerp 0 1 65536 1 = Except.error LerpError.outOfRange ∧
    i16lerp 0 1 32768 1 = Except.error LerpError.outOfRange ∧
    i16lerp 0 (-1) 32769 1 = Except.error LerpError.outOfRange := by
  refine ⟨?_, ?_, by decide, by decide, by decide⟩
  · simp only [u16lerp, if_neg hd]
    by_cases h : 0 ≤ lerpWide (ua : Int) (ub : Int) n d ∧
        lerpWide (ua : Int) (ub : Int) n d ≤ 65535
    · simp [if_pos h, h]
    · simp [if_neg h, h]
  · simp only [i16lerp, if_neg hd]
    by_cases h : -32768 ≤ lerpWide a b n d ∧ lerpWide a b n d ≤ 32767
    · simp [if_pos h, h]
    · simp [if_neg h, h]

/-- C1 witness: the amended characterization applied at a concrete
input. -/
theorem lerp_overflow_contract_witness :
    u16lerp 2 9 3 1 = Except.error LerpError.outOfRange ↔
      ¬ (0 ≤ lerpWide (2 : Int) (9 : Int) 3 1 ∧
           lerpWide (2 : Int) (9 : Int) 3 1 ≤ 65535) :=
  (lerp_overflow_contract 2 9 3 1 0 0 (by decide)).1

/-- C2 counterexample: the claim says `amplify` narrows by truncation
toward zero for every sample and factor, but `i16` `amplify(32767, 2.0)`
returns the saturated value `32767`, while truncation of the exact
product `65534.0` would give `65534`. -/
theorem amplify_not_truncation_cex :
    i16amplify 32767 (F32.finite 2) = 32767 ∧
    ratTrunc ((32767 : ℚ) * 2) = 65534 := by
  have hp : ((32767 : ℚ) * 2) = 65534 := by norm_num
  have ht : ratTrunc ((32767 : ℚ) * 2) = 65534 := by
    rw [hp]
    unfold ratTrunc
    rw [if_pos (by norm_num)]
    rw [Int.floor_eq_iff]
    constructor <;> norm_num
  refine ⟨?_, ht⟩
  have hm : F32.mul (F32.finite ((32767 : Int) : ℚ)) (F32.finite 2)
      = F32.finite ((32767 : ℚ) * 2) := by
    norm_num [F32.mul]
  unfold i16amplify
  rw [hm]
  simp only [f32toI16cast]
  rw [ht]
  decide

/-- C2 (amended): the integer `amplify`s compute the product in float
and narrow it with Rust `as` float-to-integer semantics: truncation
toward zero whenever the truncated product lies inside the native
range, and saturation to the range bound when it does not. -/
theorem amplify_narrowing (v : Int) (u : Nat) (q r : ℚ) :
    ((-32768 ≤ ratTrunc ((v : ℚ) * q) ∧ ratTrunc ((v : ℚ) * q) ≤ 32767) →
       i16amplify v (F32.finite q) = ratTrunc ((v : ℚ) * q)) ∧
    (32767 < ratTrunc ((v : ℚ) * q) → i16amplify v (F32.finite q) = 32767) ∧
    (ratTrunc ((v : ℚ) * q) < -32768 → i16amplify v (F32.finite q) = -32768) ∧
    ((0 ≤ ratTrunc ((u : ℚ) * r) ∧ ratTrunc ((u : ℚ) * r) ≤ 65535) →
       (u16amplify u (F32.finite r) : Int) = ratTrunc ((u : ℚ) * r)) ∧
    (65535 < ratTrunc ((u : ℚ) * r) → u16amplify u (F32.finite r) = 65535) ∧
    (ratTrunc ((u : ℚ) * r) < 0 → u16amplify u (F32.finite r) = 0) := by
  unfold i16amplify u16amplify
  simp only [F32.mul, f32toI16cast, f32toU16cast]
  refine ⟨fun h => ?_, fun h => ?_, fun h => ?_, fun h => ?_, fun h => ?_, fun h => ?_⟩
  · omega
  · omega
  · omega
  · omega
  · omega
  · omega

/-- C2 witness: amplifying the `i16` sample `0` by factor `0` narrows by
truncation of the exact product. -/
theorem amplify_narrowing_witness :
    i16amplify 0 (F32.finite 0) = ratTrunc ((0 : ℚ) * 0) :=
  (amplify_narrowing 0 0 0 0).1 (by constructor <;> simp [ratTrunc])

/-- C3 counterexample: under correctly rounded IEEE binary32 arithmetic
the float endpoint identity fails inside the representation range: for
`first = -1.0` and `second = 2 ^ (-25) = 1 / 33554432` (both within
`[-1, 1]`), `lerp(first, second, 1, 1)` computes
`fl(second - first) = fl(1 + 2 ^ (-25)) = 1.0` and returns
`-1.0 + 1.0 = 0.0`, not `second`. -/
theorem lerp_f32_endpoint_identity_cex :
    f32lerpR (F32.finite (-1)) (F32.finite (1 / 33554432)) 1 1 = F32.finite 0 ∧
    (0 : ℚ) ≠ 1 / 33554432 ∧
    (-1 : ℚ) ≤ 1 / 33554432 ∧ (1 / 33554432 : ℚ) ≤ 1 := by
  refine ⟨?_, by norm_num, by norm_num, by norm_num⟩
  unfold f32lerpR
  rw [Nat.cast_one, roundQ_one]
  rw [F32.subR_finite, show (1 / 33554432 : ℚ) - (-1) = 33554433 / 33554432 from by norm_num,
    roundQ_one_add_eps]
  rw [F32.mulR_finite, show (1 : ℚ) * 1 = 1 from by norm_num, roundQ_one]
  rw [F32.divR_finite 1 1 (by norm_num), show (1 : ℚ) / 1 = 1 from by norm_num, roundQ_one]
  rw [F32.addR_finite, show (-1 : ℚ) + 1 = 0 from by norm_num, roundQ_zero]

/-- C3 (amended): for the integer representations, `lerp(a, b, 0, d) = a`
and `lerp(a, b, d, d) = b` for every in-range pair and nonzero `d`, and
the min/max boundary cases return exactly the extremes; for the float
representation, `lerp(a, b, 0, d) = a` holds for in-range samples (only
IEEE-exact operations are involved: multiplying by zero, dividing zero
and adding zero), and the boundary cases between `-1.0` and `1.0` hold
exactly — proved both in the exact model and under correctly rounded
IEEE arithmetic — but the float endpoint identity at ratio `1` does not
hold for every in-range pair (see the counterexample). -/
theorem lerp_identity_and_boundary (ua ub : Nat) (a b : Int) (qa qb : ℚ) (d : Nat)
    (hd : d ≠ 0) (hua : ua ≤ 65535) (hub : ub ≤ 65535)
    (ha1 : -32768 ≤ a) (ha2 : a ≤ 32767) (hb1 : -32768 ≤ b) (hb2 : b ≤ 32767)
    (_hqa1 : -1 ≤ qa) (_hqa2 : qa ≤ 1) (_hqb1 : -1 ≤ qb) (_hqb2 : qb ≤ 1) :
    u16lerp ua ub 0 d = Except.ok ua ∧
    u16lerp ua ub d d = Except.ok ub ∧
    i16lerp a b 0 d = Except.ok a ∧
    i16lerp a b d d = Except.ok b ∧
    f32lerp (F32.finite qa) (F32.finite qb) 0 d = F32.finite qa ∧
    u16lerp 0 65535 0 1 = Except.ok 0 ∧
    u16lerp 0 65535 1 1 = Except.ok 65535 ∧
    i16lerp (-32768) 32767 0 1 = Except.ok (-32768) ∧
    i16lerp (-32768) 32767 1 1 = Except.ok 32767 ∧
    f32lerp (F32.finite (-1)) (F32.finite 1) 0 1 = F32.finite (-1) ∧
    f32lerp (F32.finite (-1)) (F32.finite 1) 1 1 = F32.finite 1 ∧
    f32lerpR (F32.finite (-1)) (F32.finite 1) 0 1 = F32.finite (-1) ∧
    f32lerpR (F32.finite (-1)) (F32.finite 1) 1 1 = F32.finite 1 := by
  have hu0 : u16lerp ua ub 0 d = Except.ok ua := by
    rw [u16lerp_ok ua ub 0 d hd
      (by rw [lerpWide_num_zero]
          exact ⟨Int.natCast_nonneg ua, by exact_mod_cast hua⟩)]
    rw [lerpWide_num_zero, Int.toNat_natCast]
  have hu1 : u16lerp ua ub d d = Except.ok ub := by
    rw [u16lerp_ok ua ub d d hd
      (by rw [lerpWide_num_eq_den _ _ _ hd]
          exact ⟨Int.natCast_nonneg ub, by exact_mod_cast hub⟩)]
    rw [lerpWide_num_eq_den _ _ _ hd, Int.toNat_natCast]
  have hi0 : i16lerp a b 0 d = Except.ok a := by
    rw [i16lerp_ok a b 0 d hd (by rw [lerpWide_num_zero]; exact ⟨ha1, ha2⟩)]
    rw [lerpWide_num_zero]
  have hi1 : i16lerp a b d d = Except.ok b := by
    rw [i16lerp_ok a b d d hd (by rw [lerpWide_num_eq_den _ _ _ hd]; exact ⟨hb1, hb2⟩)]
    rw [lerpWide_num_eq_den _ _ _ hd]
  refine ⟨hu0, hu1, hi0, hi1,
    f32lerp_num_zero qa qb d hd,
    by decide, by decide, by decide, by decide,
    f32lerp_num_zero (-1) 1 1 (by decide), f32lerp_num_eq_den (-1) 1 1 (by decide),
    f32lerpR_boundary_num_zero, f32lerpR_boundary_num_one⟩

/-- C3 witness: the identities applied at concrete samples and
denominator. -/
theorem lerp_identity_and_boundary_witness :
    u16lerp 12 31 0 7 = Except.ok 12 ∧ u16lerp 12 31 7 7 = Except.ok 31 :=
  ⟨(lerp_identity_and_boundary 12 31 (-5) 6 0 0 7 (by decide) (by decide) (by decide)
      (by decide) (by decide) (by decide) (by decide) (by decide) (by decide)
      (by decide) (by decide)).1,
   (lerp_identity_and_boundary 12 31 (-5) 6 0 0 7 (by decide) (by decide) (by decide)
      (by decide) (by decide) (by decide) (by decide) (by decide) (by decide)
      (by decide) (by decide)).2.1⟩

/-- C4: for an interpolation position in `[0, 1]` and samples in the
representation range, the integer `lerp`s succeed and their result is
within one native unit of the exact real-valued interpolation. -/
theorem lerp_accuracy (ua ub : Nat) (a b : Int) (n d : Nat)
    (hd : d ≠ 0) (hnd : n ≤ d)
    (hua : ua ≤ 65535) (hub : ub ≤ 65535)
    (ha1 : -32768 ≤ a) (ha2 : a ≤ 32767) (hb1 : -32768 ≤ b) (hb2 : b ≤ 32767) :
    (∃ r : Nat, u16lerp ua ub n d = Except.ok r ∧
       |(r : ℚ) - ((ua : ℚ) + ((ub : ℚ) - (ua : ℚ)) * (n : ℚ) / (d : ℚ))| < 1) ∧
    (∃ r : Int, i16lerp a b n d = Except.ok r ∧
       |(r : ℚ) - ((a : ℚ) + ((b : ℚ) - (a : ℚ)) * (n : ℚ) / (d : ℚ))| < 1) := by
  have hdp : 0 < d := Nat.pos_of_ne_zero hd
  constructor
  · have hrange := lerpWide_in_range (ua : Int) (ub : Int) n d hdp hnd
    have h0 : 0 ≤ lerpWide (ua : Int) (ub : Int) n d := by
      have : (0 : Int) ≤ min (ua : Int) (ub : Int) :=
        le_min (Int.natCast_nonneg ua) (Int.natCast_nonneg ub)
      linarith [hrange.1]
    have h1 : lerpWide (ua : Int) (ub : Int) n d ≤ 65535 := by
      have : max (ua : Int) (ub : Int) ≤ 65535 :=
        max_le (by exact_mod_cast hua) (by exact_mod_cast hub)
      linarith [hrange.2]
    refine ⟨(lerpWide (ua : Int) (ub : Int) n d).toNat,
      u16lerp_ok ua ub n d hd ⟨h0, h1⟩, ?_⟩
    have hcast : (((lerpWide (ua : Int) (ub : Int) n d).toNat : Nat) : ℚ)
        = ((lerpWide (ua : Int) (ub : Int) n d : Int) : ℚ) := by
      rw [← Int.cast_natCast, Int.toNat_of_nonneg h0]
    rw [hcast]
    exact lerpWide_accuracy (ua : Int) (ub : Int) n d hdp
  · have hrange := lerpWide_in_range a b n d hdp hnd
    have h0 : -32768 ≤ lerpWide a b n d := by
      have : (-32768 : Int) ≤ min a b := le_min ha1 hb1
      linarith [hrange.1]
    have h1 : lerpWide a b n d ≤ 32767 := by
      have : max a b ≤ 32767 := max_le ha2 hb2
      linarith [hrange.2]
    exact ⟨lerpWide a b n d, i16lerp_ok a b n d hd ⟨h0, h1⟩,
      lerpWide_accuracy a b n d hdp⟩

/-- C4 witness: the accuracy bound applied at a concrete interpolation. -/
theorem lerp_accuracy_witness :
    ∃ r : Nat, u16lerp 10 21 1 3 = Except.ok r ∧
      |(r : ℚ) - ((10 : ℚ) + ((21 : ℚ) - (10 : ℚ)) * (1 : ℚ) / (3 : ℚ))| < 1 := by
  have h := (lerp_accuracy 10 21 (-7) 8 1 3 (by decide) (by decide) (by decide)
    (by decide) (by decide) (by decide) (by decide) (by decide)).1
  obtain ⟨r, hr, hacc⟩ := h
  exact ⟨r, hr, by exact_mod_cast hacc⟩

/-- C5: the adapter over a source sequence of `N` samples yields exactly
the `N` conversions in source order, and every pull past exhaustion
yields `none`. -/
theorem dataConverter_maps_source (α β : Type) (conv : α → β) (l : List α) (m : Nat)
    (h : l.length ≤ m) :
    runIter (dataConverter (listIter α) conv) l m
      = l.map (fun x => some (conv x)) ++ List.replicate (m - l.length) none := by
  induction l generalizing m with
  | nil =>
      have hnone : (dataConverter (listIter α) conv).next [] = none := rfl
      rw [runIter_exhausted (List α) β (dataConverter (listIter α) conv) [] hnone m]
      simp
  | cons x xs ih =>
      cases m with
      | zero => simp at h
      | succ k =>
          have hstep : (dataConverter (listIter α) conv).next (x :: xs)
              = some (conv x, xs) := rfl
          have h' : xs.length ≤ k := by
            simp only [List.length_cons] at h
            omega
          simp only [runIter, hstep, List.map_cons, List.cons_append,
            List.length_cons, Nat.succ_sub_succ]
          rw [ih k h']

/-- C5 witness: converting the three-element `i16` source of the spec's
end-to-end example and pulling four times. -/
theorem dataConverter_maps_source_witness :
    runIter (dataConverter (listIter Int) i16toF32) [0, 16384, -32768] 4
      = [0, 16384, -32768].map (fun x => some (i16toF32 x)) ++ List.replicate 1 none :=
  dataConverter_maps_source Int F32 i16toF32 [0, 16384, -32768] 4 (by decide)

/-- C6: `to_f32` computes exactly the per-representation normalization
formula, and the example sequence `[0, 16384, -32768]` converts to
`[0.0, 0.5, -1.0]`. -/
theorem to_f32_formula (v : Int) (u : Nat) (x : F32) :
    i16toF32 v = F32.finite ((v : ℚ) / 32768) ∧
    u16toF32 u = F32.finite (((u : ℚ) - 32768) / 32768) ∧
    f32toF32 x = x ∧
    i16toF32 0 = F32.finite 0 ∧
    i16toF32 16384 = F32.finite (1 / 2) ∧
    i16toF32 (-32768) = F32.finite (-1) := by
  have h32 : (32768 : ℚ) ≠ 0 := by norm_num
  have hi : ∀ w : Int, i16toF32 w = F32.finite ((w : ℚ) / 32768) := by
    intro w
    simp [i16toF32, F32.div, h32]
  refine ⟨hi v, ?_, rfl, ?_, ?_, ?_⟩
  · simp [u16toF32, F32.sub, F32.neg, F32.add, F32.div, h32, sub_eq_add_neg]
  · rw [hi 0]; norm_num
  · rw [hi 16384]; norm_num
  · rw [hi (-32768)]; norm_num

/-- C7: the integer saturating additions clamp at the representation
bounds instead of wrapping, and the float saturating addition is plain
addition with no clamping. -/
theorem saturating_add_clamps (vp vn : Int) (u : Nat) (qa qb : ℚ)
    (hu : 0 < u) (hp : 0 < vp) (hn : vn < 0) :
    u16satAdd 65535 u = 65535 ∧
    i16satAdd 32767 vp = 32767 ∧
    i16satAdd (-32768) vn = -32768 ∧
    f32satAdd (F32.finite qa) (F32.finite qb) = F32.finite (qa + qb) := by
  refine ⟨?_, ?_, ?_, rfl⟩
  · unfold u16satAdd; omega
  · unfold i16satAdd; omega
  · unfold i16satAdd; omega

/-- C7 witness: the clamping facts at concrete inputs. -/
theorem saturating_add_clamps_witness :
    u16satAdd 65535 1 = 65535 ∧ i16satAdd 32767 1 = 32767 ∧
    i16satAdd (-32768) (-1) = -32768 :=
  ⟨(saturating_add_clamps 1 (-1) 1 0 0 (by decide) (by decide) (by decide)).1,
   (saturating_add_clamps 1 (-1) 1 0 0 (by decide) (by decide) (by decide)).2.1,
   (saturating_add_clamps 1 (-1) 1 0 0 (by decide) (by decide) (by decide)).2.2.1⟩

/-- C8: the silence values are `0`, `32768` and `0.0`, and each maps to
exactly `0.0` under `to_f32`. -/
theorem zero_value_silence :
    i16zero = 0 ∧ u16zero = 32768 ∧ f32zero = F32.finite 0 ∧
    i16toF32 i16zero = F32.finite 0 ∧
    u16toF32 u16zero = F32.finite 0 ∧
    f32toF32 f32zero = F32.finite 0 := by
  have h32 : (32768 : ℚ) ≠ 0 := by norm_num
  refine ⟨rfl, rfl, rfl, ?_, ?_, rfl⟩
  · show F32.div (F32.finite ((0 : Int) : ℚ)) (F32.finite 32768) = F32.finite 0
    simp [F32.div, h32]
  · show F32.div (F32.sub (F32.finite ((32768 : Nat) : ℚ)) (F32.finite 32768))
        (F32.finite 32768) = F32.finite 0
    simp [F32.sub, F32.neg, F32.add, F32.div, h32]

/-- C9: the adapter reports exactly the source's `size_hint` at every
state, walks through exactly the source's states, and satisfies the
exact-size contract at a state iff the source does. -/
theorem dataConverter_size_hint (σ α β : Type) (it : Iter σ α) (conv : α → β)
    (s : σ) (k n : Nat) :
    (dataConverter it conv).sizeHint s = it.sizeHint s ∧
    (dataConverter it conv).advance s k = it.advance s k ∧
    (yieldsN (dataConverter it conv) s n ↔ yieldsN it s n) ∧
    (exactAt (dataConverter it conv) s ↔ exactAt it s) :=
  ⟨rfl, dataConverter_advance σ α β it conv k s,
   dataConverter_yieldsN σ α β it conv n s,
   dataConverter_exactAt σ α β it conv s⟩

/-- C10: the integer `lerp`s with denominator `0` panic with the
division-by-zero failure for every choice of samples and numerator, a
failure mode distinct from the out-of-range narrowing panic, while the
float `lerp` with denominator `0` does not fail: it produces a
non-finite value (an infinity or `NaN`). -/
theorem lerp_den_zero (ua ub n : Nat) (a b : Int) (x y : F32) :
    u16lerp ua ub n 0 = Except.error LerpError.divByZero ∧
    i16lerp a b n 0 = Except.error LerpError.divByZero ∧
    LerpError.divByZero ≠ LerpError.outOfRange ∧
    (f32lerp x y n 0).isFinite = false := by
  exact ⟨by simp [u16lerp], by simp [i16lerp], by decide,
    f32lerp_den_zero_not_finite x y n⟩
